import Mathlib

/-!
Verification of the synthetic OHLCV market-data generator and timeframe
aggregator of `src/plots/candlestick.py` (`generate_stock_data`,
`aggregate_data_by_timeframe`), via a shallow embedding in Lean 4.

Modelling conventions:
* Calendar dates are day numbers (`ℤ`, days since 1970-01-01), with civil
  (year, month, day) conversions following the standard civil-calendar
  algorithm; this mirrors pandas timestamps, which are integer day/ns counts.
* Python floats are modelled as `ℚ`.  Python `round(x, 2)` is `round2`
  (round half to even, as Python's `round` does), and Python `int(x)` is
  `pyInt` (truncation toward zero).
* The NumPy global random generator is modelled abstractly: a state type `S`,
  a step function producing the per-bar batch of the four draws the source
  makes for each bar (`np.random.normal` for the price change, two
  `np.random.normal` draws for the high/low noise, `np.random.uniform(0.7,1.3)`
  for the volume factor), and a seeding function `ℤ → S` modelling
  `np.random.seed`.  Draw values are arbitrary rationals, so every theorem
  quantifying over streams covers every value the RNG could produce.
-/

/-! ## Calendar: day numbers and civil dates -/

/-- Days since 1970-01-01 of the civil date `(y, m, d)`; the standard
civil-from-days algorithm (as used by date libraries and pandas).
`/` and `%` on `ℤ` are Euclidean, which for the positive divisors used here
agrees with the floored division the algorithm requires. -/
def daysFromCivil (y m d : ℤ) : ℤ :=
  let y' := if m ≤ 2 then y - 1 else y
  let era := y' / 400
  let yoe := y' - era * 400
  let mp := (m + 9) % 12
  let doy := (153 * mp + 2) / 5 + d - 1
  let doe := yoe * 365 + yoe / 4 - yoe / 100 + doy
  era * 146097 + doe - 719468

/-- Civil date `(y, m, d)` of a day number; inverse direction of
`daysFromCivil` (standard algorithm). -/
def civilFromDays (z : ℤ) : ℤ × ℤ × ℤ :=
  let z' := z + 719468
  let era := z' / 146097
  let doe := z' - era * 146097
  let yoe := (doe - doe / 1460 + doe / 36524 - doe / 146096) / 365
  let y := yoe + era * 400
  let doy := doe - (365 * yoe + yoe / 4 - yoe / 100)
  let mp := (5 * doy + 2) / 153
  let d := doy - (153 * mp + 2) / 5 + 1
  let m := mp + (if mp < 10 then 3 else -9)
  (if m ≤ 2 then y + 1 else y, m, d)

/-- Day of week with Monday = 0 .. Sunday = 6 (pandas `dayofweek`);
1970-01-01 (day 0) was a Thursday. -/
def weekdayOf (z : ℤ) : ℤ := (z + 3) % 7

/-- Gregorian leap year test. -/
def isLeap (y : ℤ) : Prop := y % 4 = 0 ∧ (y % 100 ≠ 0 ∨ y % 400 = 0)

instance (y : ℤ) : Decidable (isLeap y) := by unfold isLeap; infer_instance

/-- Number of days in month `m` of year `y`. -/
def daysInMonth (y m : ℤ) : ℤ :=
  if m = 2 then (if isLeap y then 29 else 28)
  else if m = 4 ∨ m = 6 ∨ m = 9 ∨ m = 11 then 30 else 31

/-- `pd.date_range(start, end)`: all day numbers from `s` to `e` inclusive
(empty when `e < s`). -/
def dateRangeZ (s e : ℤ) : List ℤ :=
  (List.range (e + 1 - s).toNat).map (fun i : ℕ => s + (i : ℤ))

/-- Trading dates: the weekday filter `all_dates[all_dates.dayofweek < 5]`
(candlestick.py lines 61-62). -/
def tradingDays (s e : ℤ) : List ℤ :=
  (dateRangeZ s e).filter (fun z => weekdayOf z < 5)

/-! ## Python numeric primitives -/

/-- Round half to even to an integer, as Python's builtin `round` does. -/
def rhe (x : ℚ) : ℤ :=
  let f := ⌊x⌋
  let r := x - (f : ℚ)
  if r < 1 / 2 then f
  else if 1 / 2 < r then f + 1
  else if Even f then f else f + 1

/-- Python `round(x, 2)`: round to 2 decimal places, half to even. -/
def round2 (x : ℚ) : ℚ := (rhe (x * 100) : ℚ) / 100

/-- Python `int(x)`: truncation toward zero. -/
def pyInt (x : ℚ) : ℤ := if 0 ≤ x then ⌊x⌋ else -⌊-x⌋

/-! ## The price-series generator (`generate_stock_data`) -/

/-- The values of the four random draws the source makes for one bar:
`change` is the outcome of `np.random.normal(0, volatility * opens[i])`
(line 79), `hiNoise`/`loNoise` the outcomes of the two
`np.random.normal(0, daily_range / 3)` draws (lines 92-93), and `volU` the
outcome of `np.random.uniform(0.7, 1.3)` (line 101). -/
structure Draws where
  change : ℚ
  hiNoise : ℚ
  loNoise : ℚ
  volU : ℚ
deriving DecidableEq, Repr

/-- One generated bar's numeric fields (the per-index entries of the five
parallel lists `opens`, `highs`, `lows`, `closes`, `volumes`). -/
structure BarNums where
  opn : ℚ
  high : ℚ
  low : ℚ
  close : ℚ
  volume : ℤ
deriving DecidableEq, Repr

/-- Mean-reversion adjustment of the raw price change
(candlestick.py lines 82-85). -/
def adjChange (start_price volatility openP c : ℚ) : ℚ :=
  if openP > start_price * (12 / 10) then c - volatility * openP * (1 / 10)
  else if openP < start_price * (8 / 10) then c + volatility * openP * (1 / 10)
  else c

/-- The body of the generation loop for one bar, given the bar's open price
and the four draws (candlestick.py lines 79-102). `dailyRange` is retained
as the standard deviation parameter of the high/low noise draws; the draw
values themselves are abstracted into `d`. -/
def makeBar (start_price volatility openP : ℚ) (d : Draws) : BarNums :=
  let price_change := adjChange start_price volatility openP d.change
  let close := openP + price_change
  let daily_range := |price_change| + volatility * openP
  let high := max openP close + |d.hiNoise|
  let low := min openP close - |d.loNoise|
  let vol_factor := 1 + 2 * (|price_change| / (volatility * openP))
  let volume := pyInt (1000000 * vol_factor * d.volU)
  { opn := openP
    high := round2 high
    low := round2 low
    close := round2 close
    volume := volume }

/-- The generation loop (candlestick.py lines 71-102): the first bar opens at
`current_price` and each later bar opens at the previous bar's (rounded)
close. -/
def genBars (start_price volatility : ℚ) : ℚ → List Draws → List BarNums
  | _, [] => []
  | openP, d :: rest =>
      let b := makeBar start_price volatility openP d
      b :: genBars start_price volatility b.close rest

/-- The per-company parameter table (candlestick.py lines 47-54):
company name ↦ (start_price, volatility). -/
def company_params : List (String × ℚ × ℚ) :=
  [("Tesla", (200, 1 / 40)),
   ("Apple", (150, 1 / 50)),
   ("NVIDIA", (400, 3 / 100)),
   ("Microsoft", (300, 9 / 500)),
   ("Google", (2500, 11 / 500)),
   ("Amazon", (120, 3 / 125))]

/-- `company_params.get(company, company_params["Tesla"])`
(candlestick.py line 56). -/
def paramsFor (company : String) : ℚ × ℚ :=
  match company_params.find? (fun p => p.1 = company) with
  | some p => p.2
  | none => (200, 1 / 40)

/-- Run the abstract RNG for `n` bars, threading its state. -/
def runDraws {S : Type} (step : S → Draws × S) : ℕ → S → List Draws × S
  | 0, σ => ([], σ)
  | n + 1, σ =>
      let p := step σ
      let rest := runDraws step n p.2
      (p.1 :: rest.1, rest.2)

/-- The six parallel output lists of `generate_stock_data` (the dict with
keys `"Date"`, `"Open"`, `"High"`, `"Low"`, `"Close"`, `"Volume"`). -/
structure StockData where
  dates : List ℤ
  opens : List ℚ
  highs : List ℚ
  lows : List ℚ
  closes : List ℚ
  volumes : List ℤ
deriving DecidableEq, Repr

/-- `generate_stock_data(company, start_date, end_date, seed)`
(candlestick.py lines 18-111).  `step`/`seedFn` model the NumPy global RNG
(state type `S`); `σ` is the global RNG state at call time, replaced by
`seedFn n` when `seed = some n` (`np.random.seed(seed)`, lines 43-44). -/
def generate_stock_data {S : Type} (step : S → Draws × S) (seedFn : ℤ → S)
    (company : String) (start_date end_date : ℤ) (seed : Option ℤ) (σ : S) :
    StockData :=
  let σ0 := match seed with
    | some n => seedFn n
    | none => σ
  let ps := paramsFor company
  let start_price := ps.1
  let volatility := ps.2
  let dates := tradingDays start_date end_date
  let draws := (runDraws step dates.length σ0).1
  let bars := genBars start_price volatility start_price draws
  { dates := dates
    opens := bars.map (fun b => b.opn)
    highs := bars.map (fun b => b.high)
    lows := bars.map (fun b => b.low)
    closes := bars.map (fun b => b.close)
    volumes := bars.map (fun b => b.volume) }

/-! ## The timeframe aggregator (`aggregate_data_by_timeframe`) -/

/-- The rows of `pd.DataFrame(data)`: the six parallel lists zipped
positionally. -/
def rowsOf : List ℤ → List ℚ → List ℚ → List ℚ → List ℚ → List ℤ →
    List (ℤ × BarNums)
  | dt :: ds, o :: os, h :: hs, l :: ls, c :: cs, v :: vs =>
      (dt, ⟨o, h, l, c, v⟩) :: rowsOf ds os hs ls cs vs
  | _, _, _, _, _, _ => []

/-- Repack a row list into the six-list dict shape. -/
def toStockData (rows : List (ℤ × BarNums)) : StockData :=
  { dates := rows.map (fun r => r.1)
    opens := rows.map (fun r => r.2.opn)
    highs := rows.map (fun r => r.2.high)
    lows := rows.map (fun r => r.2.low)
    closes := rows.map (fun r => r.2.close)
    volumes := rows.map (fun r => r.2.volume) }

/-- `df['Date'].dt.to_period('M')`: the month period of a day number, encoded
order-isomorphically as `12 * year + (month - 1)`. -/
def monthKeyZ (z : ℤ) : ℤ :=
  let c := civilFromDays z
  12 * c.1 + (c.2.1 - 1)

/-- `df['Date'].dt.to_period('Y')`: the year period of a day number. -/
def yearKeyZ (z : ℤ) : ℤ := (civilFromDays z).1

/-- `period.end_time.strftime('%Y-%m-%d')` for a month period: the day number
of the last calendar day of that month. -/
def monthEndZ (k : ℤ) : ℤ :=
  let y := k / 12
  let m := k % 12 + 1
  daysFromCivil y m (daysInMonth y m)

/-- `period.end_time.strftime('%Y-%m-%d')` for a year period: December 31 of
that year. -/
def yearEndZ (y : ℤ) : ℤ := daysFromCivil y 12 31

/-- `df.groupby('Period')` group keys: the distinct period keys in ascending
order (pandas `groupby` sorts group keys). -/
def groupKeys (key : ℤ → ℤ) (rows : List (ℤ × BarNums)) : List ℤ :=
  ((rows.map (fun r => key r.1)).dedup).insertionSort (· ≤ ·)

/-- The rows of one `groupby` group, in their original order. -/
def groupRows (key : ℤ → ℤ) (k : ℤ) (rows : List (ℤ × BarNums)) :
    List (ℤ × BarNums) :=
  rows.filter (fun r => key r.1 = k)

/-- `group['High'].max()` (pandas max over a nonempty group). -/
def groupMaxHigh : List (ℤ × BarNums) → ℚ
  | [] => 0
  | r :: rs => rs.foldl (fun a r' => max a r'.2.high) r.2.high

/-- `group['Low'].min()` (pandas min over a nonempty group). -/
def groupMinLow : List (ℤ × BarNums) → ℚ
  | [] => 0
  | r :: rs => rs.foldl (fun a r' => min a r'.2.low) r.2.low

/-- `group['Volume'].sum()`. -/
def groupSumVol (g : List (ℤ × BarNums)) : ℤ :=
  g.foldl (fun a r => a + r.2.volume) 0

/-- `group.iloc[0]['Open']` (first row of a nonempty group). -/
def groupFirstOpen : List (ℤ × BarNums) → ℚ
  | [] => 0
  | r :: _ => r.2.opn

/-- `group.iloc[-1]['Close']` (last row of a nonempty group). -/
def groupLastClose (g : List (ℤ × BarNums)) : ℚ :=
  match g.getLast? with
  | some r => r.2.close
  | none => 0

/-- The aggregation loop body (candlestick.py lines 299-311 / 327-339): one
output row per group, dated at the period's end. -/
def aggregateRows (key endD : ℤ → ℤ) (rows : List (ℤ × BarNums)) :
    List (ℤ × BarNums) :=
  (groupKeys key rows).map (fun k =>
    let g := groupRows key k rows
    (endD k,
     { opn := groupFirstOpen g
       high := groupMaxHigh g
       low := groupMinLow g
       close := groupLastClose g
       volume := groupSumVol g }))

/-- `aggregate_data_by_timeframe(data, timeframe)`
(candlestick.py lines 263-341).  A timeframe other than `"Daily"`,
`"Monthly"`, `"Yearly"` reaches `return aggregated_data` with that local
variable never assigned, raising `UnboundLocalError`; modelled as `.error`. -/
def aggregate_data_by_timeframe (data : StockData) (timeframe : String) :
    Except String StockData :=
  if timeframe = "Daily" then .ok data
  else
    let rows := rowsOf data.dates data.opens data.highs data.lows
      data.closes data.volumes
    if timeframe = "Monthly" then
      .ok (toStockData (aggregateRows monthKeyZ monthEndZ rows))
    else if timeframe = "Yearly" then
      .ok (toStockData (aggregateRows yearKeyZ yearEndZ rows))
    else .error "UnboundLocalError: aggregated_data"

/-! ## Helper lemmas -/

/-- The all-empty output series. -/
def emptyStock : StockData := ⟨[], [], [], [], [], []⟩

theorem rowsOf_toStockData (rows : List (ℤ × BarNums)) :
    rowsOf (toStockData rows).dates (toStockData rows).opens
      (toStockData rows).highs (toStockData rows).lows
      (toStockData rows).closes (toStockData rows).volumes = rows := by
  induction rows with
  | nil => rfl
  | cons r rs ih => simpa [toStockData, rowsOf] using ih

theorem genBars_length (sp vol : ℚ) (ds : List Draws) (p : ℚ) :
    (genBars sp vol p ds).length = ds.length := by
  induction ds generalizing p with
  | nil => rfl
  | cons d rest ih => simp [genBars, ih]

/-! ## Claim theorems: determinism, no-op, error paths -/

/-- C2: for every instrument name, start date, end date, and non-None integer
seed, two calls to the generator with the same four arguments produce
bit-identical output series, whatever the global RNG state was at each call:
`np.random.seed(seed)` replaces the shared state before any draw is made. -/
theorem generate_deterministic_with_seed {S : Type} (step : S → Draws × S)
    (seedFn : ℤ → S) (company : String) (s e : ℤ) (n : ℤ) (σ₁ σ₂ : S) :
    generate_stock_data step seedFn company s e (some n) σ₁ =
      generate_stock_data step seedFn company s e (some n) σ₂ := rfl

/-- C8: aggregating any input series with target timeframe `"Daily"` returns
the input unchanged. -/
theorem aggregate_daily_is_noop (data : StockData) :
    aggregate_data_by_timeframe data "Daily" = Except.ok data := rfl

/-- C10: for every input series and every target timeframe outside
{Daily, Monthly, Yearly}, the aggregator raises (`return aggregated_data`
reaches a never-assigned local variable) instead of returning a series. -/
theorem aggregate_unknown_timeframe_errors (data : StockData)
    (timeframe : String) (h1 : timeframe ≠ "Daily") (h2 : timeframe ≠ "Monthly")
    (h3 : timeframe ≠ "Yearly") :
    aggregate_data_by_timeframe data timeframe =
      Except.error "UnboundLocalError: aggregated_data" := by
  simp [aggregate_data_by_timeframe, h1, h2, h3]

/-- Witness for C10 at the concrete timeframe `"Weekly"` and a one-bar
series. -/
theorem aggregate_unknown_timeframe_errors_witness :
    aggregate_data_by_timeframe
        ⟨[19359], [200], [201], [199], [200], [1000000]⟩ "Weekly" =
      Except.error "UnboundLocalError: aggregated_data" :=
  aggregate_unknown_timeframe_errors _ "Weekly"
    (by decide) (by decide) (by decide)

/-- C7: a date range with `end < start` yields the all-empty series from the
generator, and aggregating the all-empty series with any of the three valid
timeframes yields the all-empty series, with no error. -/
theorem empty_range_empty_aggregation {S : Type} (step : S → Draws × S)
    (seedFn : ℤ → S) (company : String) (s e : ℤ) (seed : Option ℤ) (σ : S)
    (h : e < s) :
    generate_stock_data step seedFn company s e seed σ = emptyStock ∧
      ∀ tf ∈ ["Daily", "Monthly", "Yearly"],
        aggregate_data_by_timeframe emptyStock tf = Except.ok emptyStock := by
  constructor
  · have hn : (e + 1 - s).toNat = 0 := by omega
    simp [generate_stock_data, tradingDays, dateRangeZ, hn, runDraws, genBars,
      emptyStock]
  · intro tf htf
    fin_cases htf <;> rfl

/-- Witness for C7 with `start = 0`, `end = -1`. -/
theorem empty_range_empty_aggregation_witness :
    generate_stock_data (fun _ : Unit => (⟨0, 0, 0, 1⟩, ())) (fun _ => ())
        "Tesla" 0 (-1) (some 42) () = emptyStock ∧
      ∀ tf ∈ ["Daily", "Monthly", "Yearly"],
        aggregate_data_by_timeframe emptyStock tf = Except.ok emptyStock :=
  empty_range_empty_aggregation _ _ "Tesla" 0 (-1) (some 42) () (by decide)

/-- C9: an instrument name absent from the parameter table does not raise: the
generator produces exactly the series it would produce for the default
profile (the `"Tesla"` entry, which `company_params.get` falls back to). -/
theorem unknown_company_uses_default_profile {S : Type} (step : S → Draws × S)
    (seedFn : ℤ → S) (company : String)
    (h : ∀ p ∈ company_params, p.1 ≠ company) (s e : ℤ) (seed : Option ℤ)
    (σ : S) :
    generate_stock_data step seedFn company s e seed σ =
      generate_stock_data step seedFn "Tesla" s e seed σ := by
  have hfind : company_params.find? (fun p => p.1 = company) = none := by
    rw [List.find?_eq_none]
    intro p hp
    simpa using h p hp
  have hp : paramsFor company = paramsFor "Tesla" := by
    rw [paramsFor, hfind]; rfl
  unfold generate_stock_data
  rw [hp]

/-- Witness for C9 at the concrete unknown name `"Dogecoin"`. -/
theorem unknown_company_uses_default_profile_witness :
    generate_stock_data (fun _ : Unit => (⟨0, 0, 0, 1⟩, ())) (fun _ => ())
        "Dogecoin" 19359 19363 (some 42) () =
      generate_stock_data (fun _ : Unit => (⟨0, 0, 0, 1⟩, ())) (fun _ => ())
        "Tesla" 19359 19363 (some 42) () :=
  unknown_company_uses_default_profile _ _ "Dogecoin" (by decide) 19359 19363
    (some 42) ()

/-! ## Claim C5: weekday coverage of the generated dates -/

theorem mem_dateRangeZ (s e z : ℤ) : z ∈ dateRangeZ s e ↔ s ≤ z ∧ z ≤ e := by
  simp only [dateRangeZ, List.mem_map, List.mem_range]
  constructor
  · rintro ⟨i, hi, rfl⟩
    omega
  · rintro ⟨h1, h2⟩
    exact ⟨(z - s).toNat, by omega, by omega⟩

theorem dateRangeZ_sorted (s e : ℤ) : List.Sorted (· < ·) (dateRangeZ s e) := by
  unfold dateRangeZ
  refine List.Pairwise.map _ ?_ (List.pairwise_lt_range _)
  intro a b h
  omega

/-- C5: for every start and end date with `end ≥ start`, the generated series
has exactly one bar for each weekday (Monday–Friday) in `[start, end]`: its
date list contains a date iff it lies in `[start, end]` and is a weekday, the
dates are strictly increasing (so each occurs exactly once), and no date is a
Saturday (`weekday 5`) or Sunday (`weekday 6`). -/
theorem generated_dates_are_the_weekdays {S : Type} (step : S → Draws × S)
    (seedFn : ℤ → S) (company : String) (s e : ℤ) (seed : Option ℤ) (σ : S)
    (h : s ≤ e) :
    (∀ z : ℤ, z ∈ (generate_stock_data step seedFn company s e seed σ).dates ↔
        s ≤ z ∧ z ≤ e ∧ weekdayOf z < 5) ∧
      List.Sorted (· < ·)
        (generate_stock_data step seedFn company s e seed σ).dates ∧
      ∀ z ∈ (generate_stock_data step seedFn company s e seed σ).dates,
        weekdayOf z ≠ 5 ∧ weekdayOf z ≠ 6 := by
  have hdates : (generate_stock_data step seedFn company s e seed σ).dates =
      tradingDays s e := rfl
  rw [hdates]
  refine ⟨fun z => ?_, ?_, fun z hz => ?_⟩
  · rw [tradingDays, List.mem_filter, mem_dateRangeZ]
    simp only [decide_eq_true_eq]
    tauto
  · exact (dateRangeZ_sorted s e).filter _
  · rw [tradingDays, List.mem_filter] at hz
    have h5 : weekdayOf z < 5 := by simpa using hz.2
    unfold weekdayOf at h5 ⊢
    omega

/-- Witness for C5 on the concrete week 2023-01-02 … 2023-01-08 (Monday to
Sunday): 2023-01-02 (a Monday) is generated, 2023-01-07 (a Saturday) is not. -/
theorem generated_dates_are_the_weekdays_witness :
    (19359 ∈ (generate_stock_data (fun _ : Unit => (⟨0, 0, 0, 1⟩, ()))
        (fun _ => ()) "Tesla" 19359 19365 (some 42) ()).dates ↔
      (19359 : ℤ) ≤ 19359 ∧ (19359 : ℤ) ≤ 19365 ∧ weekdayOf 19359 < 5) ∧
    ((19364 : ℤ) ∈ (generate_stock_data (fun _ : Unit => (⟨0, 0, 0, 1⟩, ()))
        (fun _ => ()) "Tesla" 19359 19365 (some 42) ()).dates ↔
      (19359 : ℤ) ≤ 19364 ∧ (19364 : ℤ) ≤ 19365 ∧ weekdayOf 19364 < 5) :=
  ⟨(generated_dates_are_the_weekdays _ _ "Tesla" 19359 19365 (some 42) ()
      (by decide)).1 19359,
   (generated_dates_are_the_weekdays _ _ "Tesla" 19359 19365 (some 42) ()
      (by decide)).1 19364⟩

/-! ## Rounding lemmas and claim C3 (OHLC invariant) -/

theorem rhe_le_floor_add_one (x : ℚ) : rhe x ≤ ⌊x⌋ + 1 := by
  simp only [rhe]
  split_ifs <;> omega

theorem floor_le_rhe (x : ℚ) : ⌊x⌋ ≤ rhe x := by
  simp only [rhe]
  split_ifs <;> omega

theorem rhe_mono {x y : ℚ} (h : x ≤ y) : rhe x ≤ rhe y := by
  have hf : ⌊x⌋ ≤ ⌊y⌋ := Int.floor_le_floor h
  rcases lt_or_eq_of_le hf with hlt | heq
  · have h1 := rhe_le_floor_add_one x
    have h2 := floor_le_rhe y
    omega
  · simp only [rhe]
    rw [← heq]
    have hr : x - (⌊x⌋ : ℚ) ≤ y - (⌊x⌋ : ℚ) := by linarith
    split_ifs <;> first | omega | linarith

theorem rhe_intCast (n : ℤ) : rhe (n : ℚ) = n := by
  simp only [rhe]
  rw [Int.floor_intCast]
  norm_num

theorem round2_mono {x y : ℚ} (h : x ≤ y) : round2 x ≤ round2 y := by
  unfold round2
  have h1 : rhe (x * 100) ≤ rhe (y * 100) := rhe_mono (by linarith)
  have h2 : ((rhe (x * 100) : ℤ) : ℚ) ≤ ((rhe (y * 100) : ℤ) : ℚ) := by
    exact_mod_cast h1
  linarith

theorem round2_idem (x : ℚ) : round2 (round2 x) = round2 x := by
  unfold round2
  rw [div_mul_cancel₀ _ (by norm_num : (100 : ℚ) ≠ 0), rhe_intCast]

/-- Every configured start price is already a 2-decimal value, and every
configured volatility is positive (including the fallback profile). -/
theorem paramsFor_good (company : String) :
    round2 (paramsFor company).1 = (paramsFor company).1 ∧
      0 < (paramsFor company).2 := by
  cases hf : company_params.find? (fun p => p.1 = company) with
  | none => simp only [paramsFor, hf]; norm_num [round2, rhe]
  | some p =>
    have hp : p ∈ company_params := List.mem_of_find?_eq_some hf
    simp only [paramsFor, hf]
    fin_cases hp <;> norm_num [round2, rhe]

theorem genBars_ohlc (sp vol : ℚ) (ds : List Draws) (openP : ℚ)
    (hfix : round2 openP = openP) :
    ∀ b ∈ genBars sp vol openP ds,
      (b.low ≤ b.opn ∧ b.opn ≤ b.high ∧ b.low ≤ b.close ∧ b.close ≤ b.high) ∧
        round2 b.close = b.close := by
  induction ds generalizing openP with
  | nil => intro b hb; simp [genBars] at hb
  | cons d rest ih =>
    intro b hb
    simp only [genBars, List.mem_cons] at hb
    rcases hb with rfl | hb
    · simp only [makeBar]
      refine ⟨⟨?_, ?_, ?_, ?_⟩, round2_idem _⟩
      · exact le_of_le_of_eq
          (round2_mono (by
            have h1 := abs_nonneg d.loNoise
            have h2 := min_le_left openP (openP + adjChange sp vol openP d.change)
            linarith))
          hfix
      · exact le_of_eq_of_le hfix.symm
          (round2_mono (by
            have h1 := abs_nonneg d.hiNoise
            have h2 := le_max_left openP (openP + adjChange sp vol openP d.change)
            linarith))
      · exact round2_mono (by
          have h1 := abs_nonneg d.loNoise
          have h2 := min_le_right openP (openP + adjChange sp vol openP d.change)
          linarith)
      · exact round2_mono (by
          have h1 := abs_nonneg d.hiNoise
          have h2 := le_max_right openP (openP + adjChange sp vol openP d.change)
          linarith)
    · exact ih (makeBar sp vol openP d).close (round2_idem _) b hb

/-- Index-level reformulation of a per-bar OHLC invariant on the four mapped
output lists (out-of-range indices read the default `0` on both sides). -/
theorem map_getD_ohlc (bars : List BarNums)
    (hbars : ∀ b ∈ bars,
      b.low ≤ b.opn ∧ b.opn ≤ b.high ∧ b.low ≤ b.close ∧ b.close ≤ b.high)
    (i : ℕ) :
    ((bars.map (fun b => b.low)).getD i 0 ≤
        (bars.map (fun b => b.opn)).getD i 0 ∧
      (bars.map (fun b => b.opn)).getD i 0 ≤
        (bars.map (fun b => b.high)).getD i 0) ∧
      (bars.map (fun b => b.low)).getD i 0 ≤
        (bars.map (fun b => b.close)).getD i 0 ∧
      (bars.map (fun b => b.close)).getD i 0 ≤
        (bars.map (fun b => b.high)).getD i 0 := by
  by_cases hi : i < bars.length
  · have hget : ∀ (f : BarNums → ℚ),
        (bars.map f).getD i 0 = f bars[i] := by
      intro f
      rw [List.getD_eq_getElem?_getD, List.getElem?_map,
        List.getElem?_eq_getElem hi]
      rfl
    rw [hget, hget, hget, hget]
    have hspec := hbars _ (List.getElem_mem hi)
    exact ⟨⟨hspec.1, hspec.2.1⟩, hspec.2.2.1, hspec.2.2.2⟩
  · have hnone : ∀ (f : BarNums → ℚ), (bars.map f).getD i 0 = 0 := by
      intro f
      rw [List.getD_eq_getElem?_getD, List.getElem?_map,
        List.getElem?_eq_none (by simpa using Nat.le_of_not_lt hi)]
      rfl
    rw [hnone, hnone, hnone, hnone]
    norm_num

/-- C3: every bar of every series the generator can produce (any company,
date range, seed, RNG behaviour and RNG state) satisfies
`low ≤ open ≤ high` and `low ≤ close ≤ high` — exactly, with no epsilon
needed: 2-decimal rounding is monotone, the opens are already 2-decimal
values, and the unrounded high/low bracket the unrounded open and close. -/
theorem generated_bars_ohlc_ordered {S : Type} (step : S → Draws × S)
    (seedFn : ℤ → S) (company : String) (s e : ℤ) (seed : Option ℤ) (σ : S)
    (i : ℕ) :
    ((generate_stock_data step seedFn company s e seed σ).lows.getD i 0 ≤
        (generate_stock_data step seedFn company s e seed σ).opens.getD i 0 ∧
      (generate_stock_data step seedFn company s e seed σ).opens.getD i 0 ≤
        (generate_stock_data step seedFn company s e seed σ).highs.getD i 0) ∧
      (generate_stock_data step seedFn company s e seed σ).lows.getD i 0 ≤
        (generate_stock_data step seedFn company s e seed σ).closes.getD i 0 ∧
      (generate_stock_data step seedFn company s e seed σ).closes.getD i 0 ≤
        (generate_stock_data step seedFn company s e seed σ).highs.getD i 0 :=
  map_getD_ohlc _
    (fun b hb => (genBars_ohlc _ _ _ _ (paramsFor_good company).1 b hb).1) i

/-! ## Claim C4: opens chain from the start price -/

theorem runDraws_fst_length {S : Type} (step : S → Draws × S) :
    ∀ (n : ℕ) (σ : S), ((runDraws step n σ).1).length = n := by
  intro n
  induction n with
  | zero => intro σ; rfl
  | succ m ih => intro σ; simp [runDraws, ih]

theorem genBars_headD_opn (sp vol : ℚ) (p : ℚ) (ds : List Draws) (n : ℕ)
    (hlen : ds.length = n) (h : n ≠ 0) :
    ((genBars sp vol p ds).map (fun b => b.opn)).headD 0 = p := by
  cases ds with
  | nil => exact absurd (hlen.symm.trans rfl) h
  | cons d rest => rfl

theorem genBars_open_chain (sp vol : ℚ) :
    ∀ (ds : List Draws) (p : ℚ) (i : ℕ), i + 1 < ds.length →
      ((genBars sp vol p ds).map (fun b => b.opn)).getD (i + 1) 0 =
        ((genBars sp vol p ds).map (fun b => b.close)).getD i 0 := by
  intro ds
  induction ds with
  | nil => intro p i h; simp at h
  | cons d rest ih =>
    intro p i h
    cases i with
    | zero =>
      cases rest with
      | nil => simp at h
      | cons d2 r2 => simp [genBars, makeBar]
    | succ j =>
      have h' : j + 1 < rest.length := by
        simpa using h
      simpa [genBars] using ih (makeBar sp vol p d).close j h'

/-- C4: in every generated series the first bar's open is the company's
configured start price, and each later bar's open is the previous bar's
close; concretely, generating for Tesla over 2023-01-02 … 2023-01-06 with
seed 42 yields exactly 5 bars whose first open is 200. -/
theorem opens_start_price_and_follow_closes {S : Type} (step : S → Draws × S)
    (seedFn : ℤ → S) (company : String) (s e : ℤ) (seed : Option ℤ) (σ : S)
    (h : tradingDays s e ≠ []) :
    (generate_stock_data step seedFn company s e seed σ).opens.headD 0 =
        (paramsFor company).1 ∧
      (∀ i : ℕ,
        i + 1 < (generate_stock_data step seedFn company s e seed σ).opens.length →
        (generate_stock_data step seedFn company s e seed σ).opens.getD (i + 1) 0 =
          (generate_stock_data step seedFn company s e seed σ).closes.getD i 0) ∧
      (generate_stock_data step seedFn "Tesla" (daysFromCivil 2023 1 2)
          (daysFromCivil 2023 1 6) (some 42) σ).dates.length = 5 ∧
      (generate_stock_data step seedFn "Tesla" (daysFromCivil 2023 1 2)
          (daysFromCivil 2023 1 6) (some 42) σ).opens.length = 5 ∧
      (generate_stock_data step seedFn "Tesla" (daysFromCivil 2023 1 2)
          (daysFromCivil 2023 1 6) (some 42) σ).opens.headD 0 = 200 := by
  have hdraws : ∀ (σ0 : S) (a b : ℤ),
      ((runDraws step (tradingDays a b).length σ0).1).length =
        (tradingDays a b).length := fun σ0 a b => runDraws_fst_length step _ σ0
  have hlen : ∀ (c : String) (a b : ℤ) (sd : Option ℤ),
      (generate_stock_data step seedFn c a b sd σ).opens.length =
        (tradingDays a b).length := by
    intro c a b sd
    show ((genBars _ _ _ _).map _).length = _
    rw [List.length_map, genBars_length, hdraws]
  have hhead : ∀ (c : String) (a b : ℤ) (sd : Option ℤ),
      tradingDays a b ≠ [] →
      (generate_stock_data step seedFn c a b sd σ).opens.headD 0 =
        (paramsFor c).1 := by
    intro c a b sd hne
    exact genBars_headD_opn _ _ _ _ (tradingDays a b).length
      (runDraws_fst_length step _ _)
      (fun h0 => hne (List.length_eq_zero.mp h0))
  refine ⟨hhead company s e seed h, ?_, ?_, ?_, ?_⟩
  · intro i hi
    rw [hlen] at hi
    have hc := genBars_open_chain (paramsFor company).1 (paramsFor company).2
      ((runDraws step (tradingDays s e).length
        (match seed with | some n => seedFn n | none => σ)).1)
      (paramsFor company).1 i (by rw [hdraws]; exact hi)
    exact hc
  · show (tradingDays (daysFromCivil 2023 1 2) (daysFromCivil 2023 1 6)).length = 5
    decide
  · rw [hlen]
    decide
  · rw [hhead "Tesla" _ _ (some 42) (by decide)]
    rfl

/-- Witness for C4: the concrete Tesla scenario, with a concrete RNG
instantiation. -/
theorem opens_start_price_and_follow_closes_witness :
    (generate_stock_data (fun _ : Unit => (⟨0, 0, 0, 1⟩, ())) (fun _ => ())
        "Tesla" (daysFromCivil 2023 1 2) (daysFromCivil 2023 1 6) (some 42)
        ()).opens.headD 0 = 200 ∧
      (generate_stock_data (fun _ : Unit => (⟨0, 0, 0, 1⟩, ())) (fun _ => ())
        "Tesla" (daysFromCivil 2023 1 2) (daysFromCivil 2023 1 6) (some 42)
        ()).dates.length = 5 :=
  ⟨(opens_start_price_and_follow_closes (fun _ : Unit => (⟨0, 0, 0, 1⟩, ()))
      (fun _ => ()) "Tesla" (daysFromCivil 2023 1 2) (daysFromCivil 2023 1 6)
      (some 42) () (by decide)).2.2.2.2,
   (opens_start_price_and_follow_closes (fun _ : Unit => (⟨0, 0, 0, 1⟩, ()))
      (fun _ => ()) "Tesla" (daysFromCivil 2023 1 2) (daysFromCivil 2023 1 6)
      (some 42) () (by decide)).2.2.1⟩

/-! ## Claim C6: the volume formula (truncation, not rounding) -/

/-- Counterexample to C6 as stated: with a uniform draw of `0.7000006` and a
zero price-change draw on a single Tesla trading day, the product
`1_000_000 * volume_factor * u` is `700000.6`; the code's `int(...)` stores
`700000`, while the claimed `round(...)` would give `700001`. -/
theorem volume_round_counterexample :
    (generate_stock_data (fun _ : Unit => (⟨0, 0, 0, 7000006 / 10000000⟩, ()))
        (fun _ => ()) "Tesla" 19359 19359 (some 42) ()).volumes = [700000] ∧
      rhe (1000000 * (1 + 2 * (|adjChange 200 (1 / 40) 200 0| /
          ((1 / 40) * 200))) * (7000006 / 10000000)) = 700001 ∧
      (700000 : ℤ) ≠ 700001 := by
  have htd : tradingDays 19359 19359 = [19359] := by decide
  have hadj : adjChange 200 (1 / 40) 200 0 = 0 := by
    unfold adjChange
    norm_num
  refine ⟨?_, ?_, by decide⟩
  · show ((genBars 200 (1 / 40) 200
        (runDraws (fun _ : Unit => (⟨0, 0, 0, 7000006 / 10000000⟩, ()))
          (tradingDays 19359 19359).length ()).1).map
        (fun b => b.volume)) = [700000]
    rw [htd]
    show [(makeBar 200 (1 / 40) 200 ⟨0, 0, 0, 7000006 / 10000000⟩).volume] =
      [700000]
    simp only [makeBar, hadj]
    norm_num [pyInt]
  · rw [hadj]
    norm_num [rhe]

theorem makeBar_volume_ge (sp vol openP : ℚ) (d : Draws) (hv : 0 < vol)
    (ho : 0 < openP) (hud : 7 / 10 ≤ d.volU) :
    700000 ≤ (makeBar sp vol openP d).volume := by
  have hvf : 1 ≤ 1 + 2 * (|adjChange sp vol openP d.change| / (vol * openP)) := by
    have h0 : 0 ≤ |adjChange sp vol openP d.change| / (vol * openP) :=
      div_nonneg (abs_nonneg _) (le_of_lt (mul_pos hv ho))
    linarith
  have hq : (700000 : ℚ) ≤ 1000000 *
      (1 + 2 * (|adjChange sp vol openP d.change| / (vol * openP))) * d.volU := by
    nlinarith [hvf, hud]
  show 700000 ≤ pyInt (1000000 *
    (1 + 2 * (|adjChange sp vol openP d.change| / (vol * openP))) * d.volU)
  unfold pyInt
  rw [if_pos (le_trans (by norm_num) hq)]
  exact Int.le_floor.mpr (by exact_mod_cast hq)

theorem runDraws_mem_volU {S : Type} (step : S → Draws × S)
    (hu : ∀ t : S, 7 / 10 ≤ ((step t).1).volU) :
    ∀ (n : ℕ) (σ : S), ∀ d ∈ (runDraws step n σ).1, 7 / 10 ≤ d.volU := by
  intro n
  induction n with
  | zero => intro σ d hd; simp [runDraws] at hd
  | succ m ih =>
    intro σ d hd
    simp only [runDraws, List.mem_cons] at hd
    rcases hd with rfl | hd
    · exact hu σ
    · exact ih _ d hd

theorem genBars_volumes_ge (sp vol : ℚ) (hv : 0 < vol) :
    ∀ (ds : List Draws) (p : ℚ), (∀ d ∈ ds, 7 / 10 ≤ d.volU) →
      (∀ q ∈ (genBars sp vol p ds).map (fun b => b.opn), 0 < q) →
      ∀ v ∈ (genBars sp vol p ds).map (fun b => b.volume), 700000 ≤ v := by
  intro ds
  induction ds with
  | nil => intro p _ _ v hv'; simp [genBars] at hv'
  | cons d rest ih =>
    intro p hud hop v hv'
    simp only [genBars, List.map_cons, List.mem_cons] at hv'
    rcases hv' with rfl | hv'
    · refine makeBar_volume_ge sp vol p d hv ?_
        (hud d (List.mem_cons_self d rest))
      have hm : (makeBar sp vol p d).opn ∈
          List.map (fun b => b.opn) (genBars sp vol p (d :: rest)) := by
        simp [genBars]
      exact hop _ hm
    · refine ih (makeBar sp vol p d).close
        (fun d' hd' => hud d' (List.mem_cons_of_mem d hd')) ?_ v hv'
      intro q hq
      refine hop q ?_
      simp only [genBars, List.map_cons, List.mem_cons]
      exact Or.inr hq

/-- C6 (amended): each generated bar's volume is the Python `int` (truncation
toward zero) of `1_000_000 * volume_factor * u` with
`volume_factor = 1 + 2 * |price_change| / (volatility * open)` — not its
rounding — and whenever every bar's open is positive and every uniform draw
is at least `0.7`, every generated volume is at least `700000`, in particular
a strictly positive integer. -/
theorem volume_is_truncated_product_and_positive {S : Type}
    (step : S → Draws × S) (seedFn : ℤ → S) (company : String) (s e : ℤ)
    (seed : Option ℤ) (σ : S)
    (hu : ∀ t : S, 7 / 10 ≤ ((step t).1).volU)
    (hopen : ∀ q ∈ (generate_stock_data step seedFn company s e seed σ).opens,
      0 < q) :
    (∀ (sp vol openP : ℚ) (d : Draws),
      (makeBar sp vol openP d).volume =
        pyInt (1000000 *
          (1 + 2 * (|adjChange sp vol openP d.change| / (vol * openP))) *
          d.volU)) ∧
      ∀ v ∈ (generate_stock_data step seedFn company s e seed σ).volumes,
        700000 ≤ v ∧ 0 < v := by
  refine ⟨fun sp vol openP d => rfl, fun v hv => ?_⟩
  have h700 : (700000 : ℤ) ≤ v :=
    genBars_volumes_ge (paramsFor company).1 (paramsFor company).2
      (paramsFor_good company).2 _ (paramsFor company).1
      (runDraws_mem_volU step hu _ _) hopen v hv
  exact ⟨h700, by omega⟩

/-- Witness for the amended C6: a concrete one-day Tesla series with uniform
draw `1`. -/
theorem volume_is_truncated_product_and_positive_witness :
    700000 ≤ (generate_stock_data (fun _ : Unit => (⟨0, 0, 0, 1⟩, ()))
        (fun _ => ()) "Tesla" 19359 19359 (some 42) ()).volumes.getD 0 0 := by
  have hopen : ∀ q ∈ (generate_stock_data (fun _ : Unit => (⟨0, 0, 0, 1⟩, ()))
      (fun _ => ()) "Tesla" 19359 19359 (some 42) ()).opens, 0 < q := by
    intro q hq
    have he : (generate_stock_data (fun _ : Unit => (⟨0, 0, 0, 1⟩, ()))
        (fun _ => ()) "Tesla" 19359 19359 (some 42) ()).opens = [200] := by
      show ((genBars 200 (1 / 40) 200
        (runDraws (fun _ : Unit => (⟨0, 0, 0, 1⟩, ()))
          (tradingDays 19359 19359).length ()).1).map (fun b => b.opn)) = [200]
      rw [show tradingDays 19359 19359 = [19359] by decide]
      rfl
    rw [he, List.mem_singleton] at hq
    rw [hq]
    norm_num
  have hmem : (generate_stock_data (fun _ : Unit => (⟨0, 0, 0, 1⟩, ()))
      (fun _ => ()) "Tesla" 19359 19359 (some 42) ()).volumes.getD 0 0 ∈
      (generate_stock_data (fun _ : Unit => (⟨0, 0, 0, 1⟩, ()))
        (fun _ => ()) "Tesla" 19359 19359 (some 42) ()).volumes := by
    have he : (generate_stock_data (fun _ : Unit => (⟨0, 0, 0, 1⟩, ()))
        (fun _ => ()) "Tesla" 19359 19359 (some 42) ()).volumes =
        [(makeBar 200 (1 / 40) 200 ⟨0, 0, 0, 1⟩).volume] := by
      show ((genBars 200 (1 / 40) 200
        (runDraws (fun _ : Unit => (⟨0, 0, 0, 1⟩, ()))
          (tradingDays 19359 19359).length ()).1).map (fun b => b.volume)) = _
      rw [show tradingDays 19359 19359 = [19359] by decide]
      rfl
    rw [he]
    exact List.mem_singleton_self _
  exact ((volume_is_truncated_product_and_positive
    (fun _ : Unit => (⟨0, 0, 0, 1⟩, ())) (fun _ => ()) "Tesla" 19359 19359
    (some 42) () (fun _ => by norm_num) hopen).2 _ hmem).1

/-! ## Claim C1: monthly and yearly aggregation -/

theorem monthEndZ_lt_succ (k : ℤ) : monthEndZ k < monthEndZ (k + 1) := by
  simp only [monthEndZ, daysFromCivil, daysInMonth, isLeap]
  split_ifs <;> omega

theorem yearEndZ_lt_succ (y : ℤ) : yearEndZ y < yearEndZ (y + 1) := by
  simp only [yearEndZ, daysFromCivil]
  split_ifs <;> omega

theorem monthEndZ_strictMono : StrictMono monthEndZ :=
  strictMono_int_of_lt_succ monthEndZ_lt_succ

theorem yearEndZ_strictMono : StrictMono yearEndZ :=
  strictMono_int_of_lt_succ yearEndZ_lt_succ

theorem maximum_cons_eq_foldl :
    ∀ (l : List ℚ) (a : ℚ), (a :: l).maximum = ((l.foldl max a : ℚ) : WithBot ℚ) := by
  intro l
  induction l with
  | nil => intro a; simp
  | cons b l ih =>
    intro a
    rw [List.foldl_cons, ← ih (max a b), List.maximum_cons, List.maximum_cons,
      List.maximum_cons, ← max_assoc]
    rw [WithBot.coe_max]

theorem minimum_cons_eq_foldl :
    ∀ (l : List ℚ) (a : ℚ), (a :: l).minimum = ((l.foldl min a : ℚ) : WithTop ℚ) := by
  intro l
  induction l with
  | nil => intro a; simp
  | cons b l ih =>
    intro a
    rw [List.foldl_cons, ← ih (min a b), List.minimum_cons, List.minimum_cons,
      List.minimum_cons, ← min_assoc]
    rw [WithTop.coe_min]

theorem groupFirstOpen_eq (g : List (ℤ × BarNums)) :
    groupFirstOpen g = ((g.map (fun r => r.2.opn)).head?).getD 0 := by
  cases g <;> rfl

theorem groupLastClose_eq (g : List (ℤ × BarNums)) :
    groupLastClose g = ((g.map (fun r => r.2.close)).getLast?).getD 0 := by
  rw [groupLastClose, List.getLast?_map]
  cases g.getLast? <;> rfl

theorem groupMaxHigh_eq (g : List (ℤ × BarNums)) :
    groupMaxHigh g = ((g.map (fun r => r.2.high)).maximum).unbot' 0 := by
  cases g with
  | nil => rfl
  | cons r rs =>
    rw [List.map_cons, maximum_cons_eq_foldl, WithBot.unbot'_coe,
      List.foldl_map]
    rfl

theorem groupMinLow_eq (g : List (ℤ × BarNums)) :
    groupMinLow g = ((g.map (fun r => r.2.low)).minimum).untop' 0 := by
  cases g with
  | nil => rfl
  | cons r rs =>
    rw [List.map_cons, minimum_cons_eq_foldl, WithTop.untop'_coe,
      List.foldl_map]
    rfl

theorem groupSumVol_eq (g : List (ℤ × BarNums)) :
    groupSumVol g = (g.map (fun r => r.2.volume)).sum := by
  rw [groupSumVol, List.sum_eq_foldl, List.foldl_map]

/-- The aggregation rule exactly as C1 words it, for one period-keying
scheme: one output bar per period (calendar month or year) present in the
input, keys in increasing (chronological) order; each output bar is dated at
the last calendar day of its period (`endD`) and carries the open of the
first bar of its group, the maximum of the group's highs, the minimum of the
group's lows, the close of the group's last bar, and the sum of the group's
volumes, the group being the input rows whose date falls in that period, in
input order. -/
def specAggregate (key endD : ℤ → ℤ) (rows : List (ℤ × BarNums)) :
    List (ℤ × BarNums) :=
  (((rows.map (fun r => key r.1)).dedup).insertionSort (· ≤ ·)).map (fun k =>
    let g := rows.filter (fun r => key r.1 = k)
    (endD k,
     { opn := ((g.map (fun r => r.2.opn)).head?).getD 0
       high := ((g.map (fun r => r.2.high)).maximum).unbot' 0
       low := ((g.map (fun r => r.2.low)).minimum).untop' 0
       close := ((g.map (fun r => r.2.close)).getLast?).getD 0
       volume := (g.map (fun r => r.2.volume)).sum }))

theorem aggregateRows_eq_specAggregate (key endD : ℤ → ℤ)
    (rows : List (ℤ × BarNums)) :
    aggregateRows key endD rows = specAggregate key endD rows := by
  rw [aggregateRows, specAggregate, groupKeys]
  apply List.map_congr_left
  intro k _
  simp only [groupRows, groupFirstOpen_eq, groupLastClose_eq, groupMaxHigh_eq,
    groupMinLow_eq, groupSumVol_eq]

theorem groupKeys_sorted_lt (key : ℤ → ℤ) (rows : List (ℤ × BarNums)) :
    List.Sorted (· < ·)
      (((rows.map (fun r => key r.1)).dedup).insertionSort (· ≤ ·)) := by
  have hperm := List.perm_insertionSort (· ≤ ·)
    ((rows.map (fun r => key r.1)).dedup)
  have hnodup := hperm.symm.nodup (List.nodup_dedup _)
  exact (List.sorted_insertionSort (· ≤ ·) _).lt_of_le hnodup

theorem specAggregate_dates_sorted (key : ℤ → ℤ) {endD : ℤ → ℤ}
    (hmono : StrictMono endD) (rows : List (ℤ × BarNums)) :
    List.Sorted (· < ·) ((specAggregate key endD rows).map (fun r => r.1)) := by
  rw [specAggregate, List.map_map]
  exact List.Pairwise.map endD (fun a b h => hmono h)
    (groupKeys_sorted_lt key rows)

/-- C1: for every non-empty well-formed OHLCV input, aggregating to
`"Monthly"` (resp. `"Yearly"`) succeeds and returns exactly the series the
claim describes — one bar per calendar month (resp. year) present in the
input (the output length is the number of distinct periods), dated at the
last calendar day of the period, with first-open / max-high / min-low /
last-close / summed-volume over the period's group — and the output dates
are in strictly increasing chronological order. -/
theorem aggregate_monthly_yearly_spec (rows : List (ℤ × BarNums))
    (hne : rows ≠ []) :
    aggregate_data_by_timeframe (toStockData rows) "Monthly" =
        Except.ok (toStockData (specAggregate monthKeyZ monthEndZ rows)) ∧
      aggregate_data_by_timeframe (toStockData rows) "Yearly" =
        Except.ok (toStockData (specAggregate yearKeyZ yearEndZ rows)) ∧
      List.Sorted (· < ·)
        ((specAggregate monthKeyZ monthEndZ rows).map (fun r => r.1)) ∧
      List.Sorted (· < ·)
        ((specAggregate yearKeyZ yearEndZ rows).map (fun r => r.1)) ∧
      (specAggregate monthKeyZ monthEndZ rows).length =
        ((rows.map (fun r => monthKeyZ r.1)).dedup).length ∧
      (specAggregate yearKeyZ yearEndZ rows).length =
        ((rows.map (fun r => yearKeyZ r.1)).dedup).length := by
  refine ⟨?_, ?_, specAggregate_dates_sorted _ monthEndZ_strictMono rows,
    specAggregate_dates_sorted _ yearEndZ_strictMono rows, ?_, ?_⟩
  · have h0 : aggregate_data_by_timeframe (toStockData rows) "Monthly" =
        Except.ok (toStockData (aggregateRows monthKeyZ monthEndZ
          (rowsOf (toStockData rows).dates (toStockData rows).opens
            (toStockData rows).highs (toStockData rows).lows
            (toStockData rows).closes (toStockData rows).volumes))) := rfl
    rw [rowsOf_toStockData, aggregateRows_eq_specAggregate] at h0
    exact h0
  · have h0 : aggregate_data_by_timeframe (toStockData rows) "Yearly" =
        Except.ok (toStockData (aggregateRows yearKeyZ yearEndZ
          (rowsOf (toStockData rows).dates (toStockData rows).opens
            (toStockData rows).highs (toStockData rows).lows
            (toStockData rows).closes (toStockData rows).volumes))) := rfl
    rw [rowsOf_toStockData, aggregateRows_eq_specAggregate] at h0
    exact h0
  · rw [specAggregate, List.length_map, (List.perm_insertionSort _ _).length_eq]
  · rw [specAggregate, List.length_map, (List.perm_insertionSort _ _).length_eq]

/-- Witness for C1: a concrete three-bar input spanning January and February
2023 (day numbers 19385 = 2023-01-28, 19388 = 2023-01-31,
19416 = 2023-02-28). -/
theorem aggregate_monthly_yearly_spec_witness :
    aggregate_data_by_timeframe
        (toStockData [(19385, ⟨10, 12, 9, 11, 100⟩),
          (19388, ⟨11, 15, 8, 12, 150⟩), (19416, ⟨12, 13, 11, 12, 200⟩)])
        "Monthly" =
      Except.ok (toStockData (specAggregate monthKeyZ monthEndZ
        [(19385, ⟨10, 12, 9, 11, 100⟩), (19388, ⟨11, 15, 8, 12, 150⟩),
          (19416, ⟨12, 13, 11, 12, 200⟩)])) :=
  (aggregate_monthly_yearly_spec
    [(19385, ⟨10, 12, 9, 11, 100⟩), (19388, ⟨11, 15, 8, 12, 150⟩),
      (19416, ⟨12, 13, 11, 12, 200⟩)] (List.cons_ne_nil _ _)).1
